import Mathlib

/-!
Verification of the transport framing and line-reassembly core of the
brilliant-monocle-driver package.  Text is modelled as `List Char`, byte
buffers as `List Nat`, and each Python method is embedded as a pure Lean
function that follows the source line by line.
-/

set_option autoImplicit false

namespace MonocleDriver

/-! ## Python `str.split` (used by `LineReader.input` as `newtext.split(self.sep)`)

Python's `str.split(sep)` with a non-empty `sep` scans left to right,
cutting at each leftmost non-overlapping occurrence of `sep`.  The fuel
argument bounds the number of scanning steps; `fuel = s.length` always
suffices for a non-empty separator, so `pySplit` instantiates it so.
(Python raises for an empty separator; that case is out of scope.) -/

def splitFuel (sep : List Char) : Nat → List Char → List Char → List (List Char)
  | 0, acc, rest => [acc ++ rest]
  | _ + 1, acc, [] => [acc]
  | fuel + 1, acc, c :: cs =>
    if sep.isPrefixOf (c :: cs) then
      acc :: splitFuel sep fuel [] ((c :: cs).drop sep.length)
    else
      splitFuel sep fuel (acc ++ [c]) cs

def pySplit (sep s : List Char) : List (List Char) :=
  splitFuel sep s.length [] s

/-! ## LineReader (line_reader.py)

State of a `LineReader` object: `current_line` is the pending partial
line, `lines` the completed lines not yet drained, `sep` the separator
fixed at construction. -/

structure LineReader where
  current_line : List Char
  lines : List (List Char)
  sep : List Char

/-- Constructor `LineReader.__init__`: empty pending line, no ready lines. -/
def LineReader.init (sep : List Char) : LineReader :=
  { current_line := [], lines := [], sep := sep }

/-- Method `LineReader.input(newtext)`: split the *new fragment alone* on the
separator, glue `current_line` onto the first piece, keep the last piece
(after that mutation) as the new `current_line`, and append all pieces
but the last to `lines`.  `pySplit` never returns `[]`, so the first
branch is unreachable. -/
def LineReader.inputText (r : LineReader) (newtext : List Char) : LineReader :=
  match pySplit r.sep newtext with
  | [] => r
  | h :: t =>
    let newlines := (r.current_line ++ h) :: t
    { r with
      current_line := newlines.getLastD []
      lines := r.lines ++ newlines.dropLast }

/-- Method `LineReader.get_lines()`: return the ready lines and clear them. -/
def LineReader.drainLines (r : LineReader) : List (List Char) × LineReader :=
  (r.lines, { r with lines := [] })

/-- A sequence of `input()` calls, in order. -/
def LineReader.runInputs (r : LineReader) : List (List Char) → LineReader
  | [] => r
  | c :: cs => (r.inputText c).runInputs cs

/-- C1. Chunk-boundary independence fails on the code: with separator
`"\r\n"`, feeding the chunks `"a\r"` and `"\nb\r\n"` (concatenation
`"a\r\nb\r\n"`) makes `get_lines` produce the single corrupted line
`"a\r\nb"`, while splitting the concatenated text on the separator and
dropping the trailing remainder gives `["a", "b"]`.  The separator
occurrence spanning the two `input()` calls is never detected because
`input` splits only the new fragment, not the accumulated buffer. -/
theorem lineReader_separator_spanning_chunks_bug :
    (((LineReader.init ['\r', '\n']).runInputs
        [['a', '\r'], ['\n', 'b', '\r', '\n']]).drainLines).1
      = [['a', '\r', '\n', 'b']] ∧
    (pySplit ['\r', '\n'] (['a', '\r'] ++ ['\n', 'b', '\r', '\n'])).dropLast
      = [['a'], ['b']] ∧
    (((LineReader.init ['\r', '\n']).runInputs
        [['a', '\r'], ['\n', 'b', '\r', '\n']]).drainLines).1
      ≠ (pySplit ['\r', '\n'] (['a', '\r'] ++ ['\n', 'b', '\r', '\n'])).dropLast := by
  refine ⟨rfl, rfl, ?_⟩
  decide

/-- C3. The invariant "`current_line` never contains a full separator
occurrence" fails on the code: after `input("a\r")` then `input("\nb")`
with separator `"\r\n"`, `current_line` is `"a\r\nb"`, which contains
the separator in full. -/
theorem lineReader_pending_contains_separator :
    ((LineReader.init ['\r', '\n']).runInputs [['a', '\r'], ['\n', 'b']]).current_line
      = ['a', '\r', '\n', 'b'] ∧
    ∃ u v, u ++ ['\r', '\n'] ++ v
      = ((LineReader.init ['\r', '\n']).runInputs
          [['a', '\r'], ['\n', 'b']]).current_line :=
  ⟨rfl, ['a'], ['b'], rfl⟩

/-! ## Chunker (batched.py)

`batched(iterable, length)` is a generator: starting from `cursor = 0`,
while `cursor < len(iterable)` it yields the Python slice
`iterable[cursor:cursor + length]` and advances `cursor` by `length`.
With `length <= 0` the loop never terminates on a non-empty buffer, so
the embedding is fuel-indexed: the second component records whether the
loop condition became false within the given fuel (`true`) or the fuel
ran out first (`false`). -/

/-- Python slice `l[lo:hi]` with step 1: negative bounds count from the
end, and both bounds are clamped to `[0, len(l)]`. -/
def pySlice {α : Type} (l : List α) (lo hi : Int) : List α :=
  (l.take (if hi < 0 then max ((l.length : Int) + hi) 0 else min hi (l.length : Int)).toNat).drop
    (if lo < 0 then max ((l.length : Int) + lo) 0 else min lo (l.length : Int)).toNat

def batchedRun {α : Type} (l : List α) (length : Int) : Int → Nat → List (List α) × Bool
  | cursor, 0 => ([], decide (¬ cursor < (l.length : Int)))
  | cursor, fuel + 1 =>
    if cursor < (l.length : Int) then
      (pySlice l cursor (cursor + length) :: (batchedRun l length (cursor + length) fuel).1,
        (batchedRun l length (cursor + length) fuel).2)
    else ([], true)

def batched {α : Type} (l : List α) (length : Int) (fuel : Nat) : List (List α) × Bool :=
  batchedRun l length 0 fuel

/-- C4. `batched` does not fail on a non-positive chunk size: with
`length = 0` and the non-empty buffer `"abc"` it yields an empty chunk
at every step and the loop never exits (the termination flag is `false`
for every amount of fuel), and with the empty buffer it terminates
normally yielding zero chunks — no error is ever signalled.  This
contradicts the docstring's reference to `itertools.batched`, which
raises `ValueError` for `n < 1`. -/
theorem batched_nonpositive_size_no_failure :
    (∀ fuel : Nat, batched ['a', 'b', 'c'] 0 fuel = (List.replicate fuel [], false)) ∧
    batched ([] : List Char) 0 1 = ([], true) := by
  refine ⟨?_, rfl⟩
  have key : ∀ fuel : Nat,
      batchedRun ['a', 'b', 'c'] 0 0 fuel = (List.replicate fuel [], false) := by
    intro fuel
    induction fuel with
    | zero => rfl
    | succ n ih =>
      show ((if (0 : Int) < 3 then _ else _ : List (List Char) × Bool)) = _
      rw [if_pos (by norm_num)]
      rw [show ((0 : Int) + 0) = 0 from rfl, ih]
      rfl
  exact fun fuel => key fuel

/-! ## Reference chunking function and its properties

`chunksOf s l` is the plain recursive presentation of what `batched`
computes for a positive chunk size `s`: take `s` elements, recurse on
the rest.  The `0, _ :: _` branch only exists to make the recursion
total; every lemma assumes `0 < s`. -/

def chunksOf {α : Type} : Nat → List α → List (List α)
  | _, [] => []
  | 0, a :: t => [a :: t]
  | s + 1, a :: t => (a :: t).take (s + 1) :: chunksOf (s + 1) ((a :: t).drop (s + 1))
termination_by _ l => l.length
decreasing_by
  simp only [List.length_drop, List.length_cons]
  omega

theorem chunksOf_nil {α : Type} (s : Nat) : chunksOf s ([] : List α) = [] := by
  cases s <;> simp [chunksOf]

theorem chunksOf_cons {α : Type} (s : Nat) (hs : 0 < s) (l : List α) (hl : l ≠ []) :
    chunksOf s l = l.take s :: chunksOf s (l.drop s) := by
  obtain ⟨k, rfl⟩ : ∃ k, s = k + 1 := ⟨s - 1, by omega⟩
  cases l with
  | nil => exact absurd rfl hl
  | cons a t => rw [chunksOf]

theorem chunksOf_flatten {α : Type} (s : Nat) (hs : 0 < s) (l : List α) :
    (chunksOf s l).flatten = l := by
  rcases eq_or_ne l [] with rfl | hl
  · rw [chunksOf_nil]; rfl
  · rw [chunksOf_cons s hs l hl, List.flatten_cons,
      chunksOf_flatten s hs (l.drop s), List.take_append_drop]
termination_by l.length
decreasing_by
  simp only [List.length_drop]
  have := List.length_pos.mpr hl
  omega

theorem chunksOf_length {α : Type} (s : Nat) (hs : 0 < s) (l : List α) :
    (chunksOf s l).length = (l.length + s - 1) / s := by
  rcases eq_or_ne l [] with rfl | hl
  · rw [chunksOf_nil]
    have h0 : ([] : List α).length + s - 1 < s := by
      simp only [List.length_nil]
      omega
    exact (Nat.div_eq_of_lt h0).symm
  · rw [chunksOf_cons s hs l hl]
    simp only [List.length_cons, chunksOf_length s hs (l.drop s), List.length_drop]
    have hL := List.length_pos.mpr hl
    rcases le_or_lt s l.length with h | h
    · have he : l.length + s - 1 = (l.length - s + s - 1) + s := by omega
      rw [he, Nat.add_div_right _ hs]
    · have h1 : l.length - s = 0 := by omega
      have h2 : (l.length + s - 1) / s = 1 :=
        Nat.div_eq_of_lt_le (by omega) (by omega)
      rw [h1, h2, Nat.div_eq_of_lt (show 0 + s - 1 < s by omega)]
termination_by l.length
decreasing_by
  simp only [List.length_drop]
  have := List.length_pos.mpr hl
  omega

theorem chunksOf_mem_length {α : Type} (s : Nat) (hs : 0 < s) (l : List α)
    (c : List α) (hc : c ∈ chunksOf s l) : 1 ≤ c.length ∧ c.length ≤ s := by
  rcases eq_or_ne l [] with rfl | hl
  · rw [chunksOf_nil] at hc; cases hc
  · rw [chunksOf_cons s hs l hl] at hc
    rcases List.mem_cons.mp hc with rfl | hc
    · have hL := List.length_pos.mpr hl
      simp only [List.length_take]
      omega
    · exact chunksOf_mem_length s hs (l.drop s) c hc
termination_by l.length
decreasing_by
  simp only [List.length_drop]
  have := List.length_pos.mpr hl
  omega

theorem chunksOf_dropLast_length {α : Type} (s : Nat) (hs : 0 < s) (l : List α)
    (c : List α) (hc : c ∈ (chunksOf s l).dropLast) : c.length = s := by
  rcases eq_or_ne l [] with rfl | hl
  · rw [chunksOf_nil] at hc; cases hc
  · rw [chunksOf_cons s hs l hl] at hc
    rcases eq_or_ne (l.drop s) [] with hd | hd
    · rw [hd, chunksOf_nil] at hc
      cases hc
    · have hne : chunksOf s (l.drop s) ≠ [] := by
        rw [chunksOf_cons s hs _ hd]
        exact List.cons_ne_nil _ _
      rw [List.dropLast_cons_of_ne_nil hne] at hc
      rcases List.mem_cons.mp hc with rfl | hc
      · have hlen : s < l.length := by
          by_contra hcon
          exact hd (List.drop_eq_nil_iff.mpr (by omega))
        simp only [List.length_take]
        omega
      · exact chunksOf_dropLast_length s hs (l.drop s) c hc
termination_by l.length
decreasing_by
  simp only [List.length_drop]
  have := List.length_pos.mpr hl
  omega

/-- The slice `iterable[cursor:cursor + length]` taken by `batched`, for
natural cursor and length, is `take length` of `drop cursor`. -/
theorem pySlice_natCast {α : Type} (l : List α) (c s : Nat) :
    pySlice l (c : Int) ((c : Int) + (s : Int)) = (l.drop c).take s := by
  unfold pySlice
  rw [if_neg (not_lt.mpr (Int.natCast_nonneg c)),
    if_neg (not_lt.mpr (by positivity))]
  have e1 : (min (c : Int) (l.length : Int)).toNat = min c l.length := by
    rw [← Nat.cast_min c l.length, Int.toNat_natCast]
  have e2 : (min ((c : Int) + (s : Int)) (l.length : Int)).toNat = min (c + s) l.length := by
    rw [← Nat.cast_add, ← Nat.cast_min (c + s) l.length, Int.toNat_natCast]
  rw [e1, e2]
  rcases le_or_lt c l.length with h | h
  · rw [min_eq_left h]
    have ht : l.take (min (c + s) l.length) = l.take (c + s) := by
      rcases le_or_lt (c + s) l.length with h' | h'
      · rw [min_eq_left h']
      · rw [min_eq_right (le_of_lt h'), List.take_length,
          List.take_of_length_le (le_of_lt h')]
    rw [ht, List.drop_take]
    congr 1
    omega
  · rw [min_eq_right (le_of_lt h), min_eq_right (by omega), List.take_length,
      List.drop_eq_nil_iff.mpr le_rfl, List.drop_eq_nil_iff.mpr (by omega)]
    simp

/-- For a positive chunk size, the `batched` loop terminates within
`l.length` iterations and computes `chunksOf`. -/
theorem batchedRun_eq_chunksOf {α : Type} (l : List α) (s : Nat) (hs : 0 < s) :
    ∀ (fuel c : Nat), l.length - c ≤ fuel →
      batchedRun l (s : Int) (c : Int) fuel = (chunksOf s (l.drop c), true) := by
  intro fuel
  induction fuel with
  | zero =>
    intro c hc
    have hlc : l.length ≤ c := by omega
    have hni : ¬ ((c : Int) < (l.length : Int)) := by exact_mod_cast not_lt.mpr hlc
    show ([], decide ¬ ((c : Int) < (l.length : Int))) = _
    rw [List.drop_eq_nil_iff.mpr hlc, chunksOf_nil]
    simp [hni]
  | succ n ih =>
    intro c hc
    by_cases h : c < l.length
    · have hlt : (c : Int) < (l.length : Int) := by exact_mod_cast h
      show (if (c : Int) < (l.length : Int) then _ else _) = _
      rw [if_pos hlt, pySlice_natCast,
        show (c : Int) + (s : Int) = ((c + s : Nat) : Int) from by push_cast; ring,
        ih (c + s) (by omega),
        show l.drop (c + s) = (l.drop c).drop s from by rw [List.drop_drop, Nat.add_comm],
        ← chunksOf_cons s hs (l.drop c)
          (by rw [Ne, List.drop_eq_nil_iff]; omega)]
    · have hni : ¬ ((c : Int) < (l.length : Int)) := by exact_mod_cast h
      show (if (c : Int) < (l.length : Int) then _ else _) = _
      rw [if_neg hni, List.drop_eq_nil_iff.mpr (by omega), chunksOf_nil]

/-- C5. Chunker correctness for every buffer and every positive chunk
size `s` (run with fuel `buf.length`, which always suffices): the loop
terminates, produces exactly `ceil(N / s)` chunks whose in-order
concatenation is the original buffer, every chunk except possibly the
last has length exactly `s`, every chunk has length between 1 and `s`,
and an empty buffer yields zero chunks. -/
theorem batched_chunks_correct {α : Type} (buf : List α) (s : Int) (hs : 0 < s) :
    (batched buf s buf.length).2 = true ∧
    (batched buf s buf.length).1.length = (buf.length + s.toNat - 1) / s.toNat ∧
    (∀ c ∈ (batched buf s buf.length).1.dropLast, c.length = s.toNat) ∧
    (∀ c ∈ (batched buf s buf.length).1, 1 ≤ c.length ∧ c.length ≤ s.toNat) ∧
    (batched buf s buf.length).1.flatten = buf ∧
    (buf = [] → (batched buf s buf.length).1 = []) := by
  have hs' : 0 < s.toNat := by omega
  have key : batched buf s buf.length = (chunksOf s.toNat buf, true) := by
    show batchedRun buf s 0 buf.length = _
    conv_lhs =>
      rw [show s = ((s.toNat : Nat) : Int) from (Int.toNat_of_nonneg (le_of_lt hs)).symm,
        show (0 : Int) = ((0 : Nat) : Int) from rfl]
    rw [batchedRun_eq_chunksOf buf s.toNat hs' buf.length 0 (by omega), List.drop_zero]
  rw [key]
  refine ⟨rfl, chunksOf_length _ hs' buf,
    fun c hc => chunksOf_dropLast_length _ hs' buf c hc,
    fun c hc => chunksOf_mem_length _ hs' buf c hc,
    chunksOf_flatten _ hs' buf, fun h => by rw [h, chunksOf_nil]⟩

/-- Witness for C5 at the concrete buffer `"abcde"` and chunk size 2. -/
theorem batched_chunks_correct_witness :
    (0 : Int) < 2 ∧
    ((batched ['a', 'b', 'c', 'd', 'e'] 2 (['a', 'b', 'c', 'd', 'e'] : List Char).length).2 = true ∧
    (batched ['a', 'b', 'c', 'd', 'e'] 2 (['a', 'b', 'c', 'd', 'e'] : List Char).length).1.length
      = ((['a', 'b', 'c', 'd', 'e'] : List Char).length + (2 : Int).toNat - 1) / (2 : Int).toNat ∧
    (∀ c ∈ (batched ['a', 'b', 'c', 'd', 'e'] 2 (['a', 'b', 'c', 'd', 'e'] : List Char).length).1.dropLast,
      c.length = (2 : Int).toNat) ∧
    (∀ c ∈ (batched ['a', 'b', 'c', 'd', 'e'] 2 (['a', 'b', 'c', 'd', 'e'] : List Char).length).1,
      1 ≤ c.length ∧ c.length ≤ (2 : Int).toNat) ∧
    (batched ['a', 'b', 'c', 'd', 'e'] 2 (['a', 'b', 'c', 'd', 'e'] : List Char).length).1.flatten
      = ['a', 'b', 'c', 'd', 'e'] ∧
    ((['a', 'b', 'c', 'd', 'e'] : List Char) = [] →
      (batched ['a', 'b', 'c', 'd', 'e'] 2 (['a', 'b', 'c', 'd', 'e'] : List Char).length).1 = [])) :=
  ⟨by decide, batched_chunks_correct ['a', 'b', 'c', 'd', 'e'] 2 (by decide)⟩

/-! ## Outbound send (`Monocle.send`)

`send(input)` raises if not connected, performs
`input.replace("\n", "\r\n")`, wraps the text as
`'\x03\x01' + input + '\x04'`, UTF-8 encodes it, and writes it as the
chunks of `batched(buffer, MTU_SIZE - 3)`, one `write_gatt_char` per
chunk, in order.  The embedding returns the ordered list of write
payloads (as byte lists). -/

def MTU_SIZE : Nat := 128

/-- UTF-8 encoding of a single character, as performed by `str.encode()`. -/
def utf8EncodeChar (c : Char) : List Nat :=
  if c.toNat < 0x80 then [c.toNat]
  else if c.toNat < 0x800 then
    [0xC0 ||| (c.toNat >>> 6), 0x80 ||| (c.toNat &&& 0x3F)]
  else if c.toNat < 0x10000 then
    [0xE0 ||| (c.toNat >>> 12), 0x80 ||| ((c.toNat >>> 6) &&& 0x3F),
      0x80 ||| (c.toNat &&& 0x3F)]
  else
    [0xF0 ||| (c.toNat >>> 18), 0x80 ||| ((c.toNat >>> 12) &&& 0x3F),
      0x80 ||| ((c.toNat >>> 6) &&& 0x3F), 0x80 ||| (c.toNat &&& 0x3F)]

/-- Embedding of `input.replace("\n", "\r\n")`: with a single-character pattern,
Python's `str.replace` rewrites every occurrence of that character to
the replacement and leaves every other character unchanged. -/
def replaceLF (s : List Char) : List Char :=
  s.flatMap fun c => if c = '\n' then ['\r', '\n'] else [c]

/-- Embedding of `Monocle.send`.  The `Bool` argument is `self.connected`. -/
def sendWrites (connected : Bool) (input : List Char) : Except String (List (List Nat)) :=
  if ¬ connected then Except.error "Monocle is not connected."
  else
    Except.ok
      (batched (('\x03' :: '\x01' :: (replaceLF input ++ ['\x04'])).flatMap utf8EncodeChar)
        ((MTU_SIZE : Int) - 3)
        (('\x03' :: '\x01' :: (replaceLF input ++ ['\x04'])).flatMap utf8EncodeChar).length).1

/-- The byte buffer actually framed by `send`: control bytes encode to
themselves, so encoding the wrapped text is `0x03 0x01 <encoded
normalised payload> 0x04`. -/
theorem send_buffer_eq (p : List Char) :
    ('\x03' :: '\x01' :: (replaceLF p ++ ['\x04'])).flatMap utf8EncodeChar
      = 0x03 :: 0x01 :: ((replaceLF p).flatMap utf8EncodeChar ++ [0x04]) := by
  rw [List.flatMap_cons, List.flatMap_cons, List.flatMap_append,
    show utf8EncodeChar '\x03' = [0x03] from rfl,
    show utf8EncodeChar '\x01' = [0x01] from rfl,
    show (['\x04'] : List Char).flatMap utf8EncodeChar = [0x04] from rfl]
  rfl

/-- C6. Wire-level framing of `send` on a connected session: the writes
concatenate, in issue order, to exactly
`0x03 0x01 <payload with LF replaced by CRLF, UTF-8 encoded> 0x04`;
there are `ceil(len / (MTU_SIZE - 3))` of them and each holds at most
`MTU_SIZE - 3` bytes. -/
theorem send_wire_framing (p : List Char) :
    ∃ ws, sendWrites true p = Except.ok ws ∧
      ws.flatten = 0x03 :: 0x01 :: ((replaceLF p).flatMap utf8EncodeChar ++ [0x04]) ∧
      ws.length =
        ((0x03 :: 0x01 :: ((replaceLF p).flatMap utf8EncodeChar ++ [0x04])).length
            + (MTU_SIZE - 3) - 1) / (MTU_SIZE - 3) ∧
      (∀ w ∈ ws, w.length ≤ MTU_SIZE - 3) := by
  have h125 : (0 : Nat) < 125 := by norm_num
  have key : ∀ buffer : List Nat,
      batched buffer ((MTU_SIZE : Int) - 3) buffer.length = (chunksOf 125 buffer, true) := by
    intro buffer
    show batchedRun buffer ((MTU_SIZE : Int) - 3) 0 buffer.length = _
    conv_lhs =>
      rw [show ((MTU_SIZE : Int) - 3) = ((125 : Nat) : Int) from by norm_num [MTU_SIZE],
        show (0 : Int) = ((0 : Nat) : Int) from rfl]
    rw [batchedRun_eq_chunksOf buffer 125 h125 buffer.length 0 (by omega), List.drop_zero]
  refine ⟨chunksOf 125 (('\x03' :: '\x01' :: (replaceLF p ++ ['\x04'])).flatMap utf8EncodeChar),
    ?_, ?_, ?_, ?_⟩
  · show (if ¬ true then _ else _) = _
    rw [if_neg (by simp), key]
  · rw [chunksOf_flatten 125 h125, send_buffer_eq]
  · rw [chunksOf_length 125 h125, send_buffer_eq,
      show MTU_SIZE - 3 = 125 from rfl]
  · intro w hw
    have h := chunksOf_mem_length 125 h125 _ w hw
    exact h.2

/-- C7. `send()` while disconnected fails with the not-connected error
before any byte processing: the embedding short-circuits on the
connectivity check, producing no write at all, for every payload. -/
theorem send_disconnected_error (p : List Char) :
    sendWrites false p = Except.error "Monocle is not connected." := rfl

/-! ## Listener registry and touch-event installation (`Monocle`)

The registry is the insertion-ordered dict `self.line_listeners`
together with the counter `self.next_line_listener_id`
(`itertools.count(1, 1)`).  Listener callbacks are identified by a tag:
the internal touch decoder `self._touch_line_listener`, or an external
callback. -/

inductive ListenerKind where
  | touchDecoder : ListenerKind
  | external : Nat → ListenerKind
deriving DecidableEq

structure MonocleState where
  next_line_listener_id : Nat
  line_listeners : List (Nat × ListenerKind)
  touch_events_installed : Bool
  connected : Bool
  sent : List (List Char)
deriving DecidableEq

/-- State after `Monocle.__init__` followed (optionally) by a successful `connect()`:
counter starts at 1, no listeners, touch events not installed, nothing
sent. -/
def initMonocle (connected : Bool) : MonocleState :=
  { next_line_listener_id := 1
    line_listeners := []
    touch_events_installed := false
    connected := connected
    sent := [] }

/-- Method `Monocle.add_line_listener`: draw the next counter value, store the
callback under it, return it. -/
def add_line_listener (st : MonocleState) (l : ListenerKind) : Nat × MonocleState :=
  (st.next_line_listener_id,
    { st with
      next_line_listener_id := st.next_line_listener_id + 1
      line_listeners := st.line_listeners ++ [(st.next_line_listener_id, l)] })

/-- Method `Monocle.remove_line_listener`: `del self.line_listeners[token]` —
raises `KeyError` when the token is absent. -/
def remove_line_listener (st : MonocleState) (token : Nat) : Except String MonocleState :=
  if st.line_listeners.any (fun q => q.1 == token) then
    Except.ok { st with line_listeners := st.line_listeners.eraseP (fun q => q.1 == token) }
  else Except.error "KeyError"

/-- The device-side command sent by `install_touch_events`. -/
def TOUCH_CALLBACK_COMMAND : List Char :=
  ("\nimport touch\ntouch.callback(touch.A, lambda x: print(\"[EVENT:touch-A]\"))\ntouch.callback(touch.B, lambda x: print(\"[EVENT:touch-B]\"))\n").data

/-- Embedding of `Monocle.send` as a state transformer: on a connected session the
payload is delivered (recorded in `sent`); otherwise the
not-connected exception is raised and the state is unchanged. -/
def sendState (st : MonocleState) (text : List Char) : Option String × MonocleState :=
  if ¬ st.connected then (some "Monocle is not connected.", st)
  else (none, { st with sent := st.sent ++ [text] })

/-- Method `Monocle.install_touch_events`: on the first call set the installed
flag and register the decoder as a line listener, then (on every call)
send `TOUCH_CALLBACK_COMMAND`.  The flag and registration mutations
happen before the send and persist even when the send raises; the first
component carries the raised exception, if any. -/
def install_touch_events (st : MonocleState) : Option String × MonocleState :=
  let st1 :=
    if ¬ st.touch_events_installed then
      (add_line_listener { st with touch_events_installed := true } ListenerKind.touchDecoder).2
    else st
  sendState st1 TOUCH_CALLBACK_COMMAND

/-! ### C8: token allocation -/

inductive ListenerOp where
  | add : ListenerKind → ListenerOp
  | remove : Nat → ListenerOp

/-- Run a sequence of `add_line_listener` / `remove_line_listener`
calls, collecting the tokens the `add` calls return, aborting at the
first raised `KeyError`. -/
def runListenerOps (st : MonocleState) : List ListenerOp → Except String (MonocleState × List Nat)
  | [] => Except.ok (st, [])
  | ListenerOp.add l :: rest =>
    match runListenerOps (add_line_listener st l).2 rest with
    | Except.ok (st', toks) => Except.ok (st', (add_line_listener st l).1 :: toks)
    | Except.error e => Except.error e
  | ListenerOp.remove t :: rest =>
    match remove_line_listener st t with
    | Except.ok st' => runListenerOps st' rest
    | Except.error e => Except.error e

/-- Removal never touches the counter, and an `add` advances it by one
while returning its current value: the tokens a successful run hands
out are consecutive, starting at the counter's initial value. -/
theorem runListenerOps_tokens (ops : List ListenerOp) :
    ∀ (st st' : MonocleState) (toks : List Nat),
      runListenerOps st ops = Except.ok (st', toks) →
      toks = List.range' st.next_line_listener_id toks.length 1 ∧
      st'.next_line_listener_id = st.next_line_listener_id + toks.length := by
  induction ops with
  | nil =>
    intro st st' toks h
    simp only [runListenerOps] at h
    obtain ⟨rfl, rfl⟩ : st = st' ∧ ([] : List Nat) = toks := by simpa using h
    exact ⟨rfl, rfl⟩
  | cons op rest ih =>
    cases op with
    | add l =>
      intro st st' toks h
      simp only [runListenerOps] at h
      cases hrec : runListenerOps (add_line_listener st l).2 rest with
      | error e => rw [hrec] at h; cases h
      | ok pr =>
        obtain ⟨st2, toks2⟩ := pr
        rw [hrec] at h
        obtain ⟨rfl, rfl⟩ : st2 = st' ∧ (add_line_listener st l).1 :: toks2 = toks := by
          simpa using h
        obtain ⟨h1, h2⟩ := ih _ st2 toks2 hrec
        refine ⟨?_, ?_⟩
        · show st.next_line_listener_id :: toks2 = _
          rw [List.length_cons, List.range'_succ]
          exact congrArg _ h1
        · simp only [List.length_cons]
          rw [h2]
          show st.next_line_listener_id + 1 + toks2.length = _
          omega
    | remove t =>
      intro st st' toks h
      simp only [runListenerOps] at h
      cases hrem : remove_line_listener st t with
      | error e => rw [hrem] at h; cases h
      | ok st1 =>
        rw [hrem] at h
        obtain ⟨h1, h2⟩ := ih st1 st' toks h
        have hnid : st1.next_line_listener_id = st.next_line_listener_id := by
          unfold remove_line_listener at hrem
          split at hrem
          · obtain rfl : ({ st with
                line_listeners := st.line_listeners.eraseP (fun q => q.1 == t) } :
                  MonocleState) = st1 := by simpa using hrem
            rfl
          · cases hrem
        rw [hnid] at h1 h2
        exact ⟨h1, h2⟩

/-- C8. Listener token allocation: for every sequence of
`add_line_listener` / `remove_line_listener` calls in one session, the
tokens returned by the successive `add` calls are exactly `1, 2, 3, …`
— starting at 1, increasing by exactly 1 per call, hence strictly
increasing and never reused even after a removal. -/
theorem listener_tokens_sequential (ops : List ListenerOp) (st' : MonocleState)
    (toks : List Nat) (connected : Bool)
    (h : runListenerOps (initMonocle connected) ops = Except.ok (st', toks)) :
    toks = List.range' 1 toks.length 1 ∧
    st'.next_line_listener_id = 1 + toks.length :=
  runListenerOps_tokens ops (initMonocle connected) st' toks h

/-- Witness for C8: two adds, a removal of token 1, then another add —
the add calls return `[1, 2, 3]` and the counter ends at 4. -/
theorem listener_tokens_sequential_witness :
    runListenerOps (initMonocle true)
        [ListenerOp.add (ListenerKind.external 0), ListenerOp.add (ListenerKind.external 1),
          ListenerOp.remove 1, ListenerOp.add (ListenerKind.external 2)]
      = Except.ok
          ({ next_line_listener_id := 4
             line_listeners := [(2, ListenerKind.external 1), (3, ListenerKind.external 2)]
             touch_events_installed := false
             connected := true
             sent := [] }, [1, 2, 3]) ∧
    ([1, 2, 3] : List Nat) = List.range' 1 ([1, 2, 3] : List Nat).length 1 ∧
    (({ next_line_listener_id := 4
        line_listeners := [(2, ListenerKind.external 1), (3, ListenerKind.external 2)]
        touch_events_installed := false
        connected := true
        sent := [] } : MonocleState)).next_line_listener_id = 1 + ([1, 2, 3] : List Nat).length :=
  ⟨rfl,
    listener_tokens_sequential
      [ListenerOp.add (ListenerKind.external 0), ListenerOp.add (ListenerKind.external 1),
        ListenerOp.remove 1, ListenerOp.add (ListenerKind.external 2)]
      { next_line_listener_id := 4
        line_listeners := [(2, ListenerKind.external 1), (3, ListenerKind.external 2)]
        touch_events_installed := false
        connected := true
        sent := [] }
      [1, 2, 3] true rfl⟩

/-! ### C9 / C10: `install_touch_events` -/

/-- Iterated install: `n` consecutive calls of `install_touch_events`. -/
def installN (st : MonocleState) : Nat → MonocleState
  | 0 => st
  | n + 1 => (install_touch_events (installN st n)).2

/-- Closed form of `n ≥ 1` installs on a fresh connected session: the
decoder is registered once under token 1, and the command has been sent
`n` times. -/
theorem installN_closed_form (n : Nat) (hn : 1 ≤ n) :
    installN (initMonocle true) n =
      { next_line_listener_id := 2
        line_listeners := [(1, ListenerKind.touchDecoder)]
        touch_events_installed := true
        connected := true
        sent := List.replicate n TOUCH_CALLBACK_COMMAND } := by
  induction n with
  | zero => exact absurd hn (by omega)
  | succ m ih =>
    cases m with
    | zero => rfl
    | succ k =>
      show (install_touch_events (installN (initMonocle true) (k + 1))).2 = _
      rw [ih (by omega)]
      simp [install_touch_events, sendState, List.replicate_succ']

/-- C9. `install_touch_events` is idempotent with respect to registry
membership: after any `n ≥ 1` calls on a connected session the registry
holds exactly one entry for the touch decoder, while the device-side
install command has been sent exactly `n` times. -/
theorem install_touch_events_registry_idempotent (n : Nat) (hn : 1 ≤ n) :
    ((installN (initMonocle true) n).line_listeners.filter
        (fun q => q.2 == ListenerKind.touchDecoder)).length = 1 ∧
    (installN (initMonocle true) n).sent.length = n := by
  rw [installN_closed_form n hn]
  exact ⟨rfl, List.length_replicate n TOUCH_CALLBACK_COMMAND⟩

/-- Witness for C9 at `n = 2`: one registry entry, two sends. -/
theorem install_touch_events_registry_idempotent_witness :
    1 ≤ 2 ∧
    (((installN (initMonocle true) 2).line_listeners.filter
        (fun q => q.2 == ListenerKind.touchDecoder)).length = 1 ∧
      (installN (initMonocle true) 2).sent.length = 2) :=
  ⟨by omega, install_touch_events_registry_idempotent 2 (by omega)⟩

/-- C10. A first `install_touch_events` call on a disconnected session
raises the not-connected error from `send`, yet the installed flag has
been set and the decoder has been registered before the error, and
neither mutation is rolled back; no command is recorded as sent. -/
theorem install_disconnected_nonatomic (st : MonocleState)
    (hinst : st.touch_events_installed = false) (hconn : st.connected = false) :
    (install_touch_events st).1 = some "Monocle is not connected." ∧
    (install_touch_events st).2.touch_events_installed = true ∧
    (install_touch_events st).2.line_listeners
      = st.line_listeners ++ [(st.next_line_listener_id, ListenerKind.touchDecoder)] ∧
    (install_touch_events st).2.sent = st.sent := by
  simp [install_touch_events, sendState, add_line_listener, hinst, hconn]

/-- Witness for C10 on a freshly constructed, never-connected session. -/
theorem install_disconnected_nonatomic_witness :
    (initMonocle false).touch_events_installed = false ∧
    (initMonocle false).connected = false ∧
    ((install_touch_events (initMonocle false)).1 = some "Monocle is not connected." ∧
      (install_touch_events (initMonocle false)).2.touch_events_installed = true ∧
      (install_touch_events (initMonocle false)).2.line_listeners
        = (initMonocle false).line_listeners
          ++ [((initMonocle false).next_line_listener_id, ListenerKind.touchDecoder)] ∧
      (install_touch_events (initMonocle false)).2.sent = (initMonocle false).sent) :=
  ⟨rfl, rfl, install_disconnected_nonatomic (initMonocle false) rfl rfl⟩

/-! ## Line dispatch (`Monocle._on_notify`) — C2

For each reassembled line `_on_notify` runs

    for listener in self.line_listeners.values():
        listener(line)

iterating the *live* dict view, not a snapshot.  CPython dict iterators
record the dict's size at creation and every subsequent `next()` call
raises `RuntimeError` ("dictionary changed size during iteration") when
the current size differs, before yielding anything; `del` of a missing
key raises `KeyError`.  A listener's effect on the registry during its
own invocation is summarised by an action: do nothing, or remove a
token (via `remove_line_listener`). -/

inductive LAction where
  | pass : LAction
  | removeTok : Nat → LAction
deriving DecidableEq

inductive PyError where
  | runtimeError : PyError
  | keyError : PyError
deriving DecidableEq

/-- One dispatch step sequence: `d` is the live dict, the last argument
the entries the iterator has not yet yielded, `origSize` the size the
iterator recorded at creation.  Returns the tokens whose listeners were
invoked (in order), the final dict, and the raised error, if any. -/
def dispatchGo (origSize : Nat) : List (Nat × LAction) → List (Nat × LAction) →
    List Nat × List (Nat × LAction) × Option PyError
  | d, [] =>
    if d.length = origSize then ([], d, none) else ([], d, some PyError.runtimeError)
  | d, (tok, act) :: rest =>
    if d.length ≠ origSize then ([], d, some PyError.runtimeError)
    else
      match act with
      | LAction.pass =>
        (tok :: (dispatchGo origSize d rest).1, (dispatchGo origSize d rest).2)
      | LAction.removeTok t =>
        if d.any (fun q => q.1 == t) then
          (tok :: (dispatchGo origSize (d.eraseP (fun q => q.1 == t)) rest).1,
            (dispatchGo origSize (d.eraseP (fun q => q.1 == t)) rest).2)
        else ([tok], d, some PyError.keyError)

/-- Dispatch of one line over the registry, as `_on_notify` performs it. -/
def dispatch (reg : List (Nat × LAction)) :
    List Nat × List (Nat × LAction) × Option PyError :=
  dispatchGo reg.length reg reg

/-- Once the live dict's size differs from the recorded one, the very
next iteration step raises `RuntimeError` without invoking anyone. -/
theorem dispatchGo_size_mismatch (origSize : Nat) (pending d : List (Nat × LAction))
    (hne : d.length ≠ origSize) :
    dispatchGo origSize d pending = ([], d, some PyError.runtimeError) := by
  cases pending with
  | nil => simp [dispatchGo, hne]
  | cons q rest =>
    obtain ⟨tok, act⟩ := q
    simp [dispatchGo, hne]

/-- While no listener mutates the dict, iteration yields every entry in
order. -/
theorem dispatchGo_all_pass (origSize : Nat) (d : List (Nat × LAction))
    (hd : d.length = origSize) :
    ∀ pending, (∀ q ∈ pending, q.2 = LAction.pass) →
      dispatchGo origSize d pending = (pending.map Prod.fst, d, none) := by
  intro pending
  induction pending with
  | nil =>
    intro _
    simp [dispatchGo, hd]
  | cons q rest ih =>
    intro hp
    obtain ⟨tok, act⟩ := q
    have hq : act = LAction.pass := hp (tok, act) (List.mem_cons_self _ _)
    subst hq
    simp [dispatchGo, hd, ih (fun q hq => hp q (List.mem_cons_of_mem _ hq))]

/-- Pass-only entries at the front of the pending list just accumulate
their tokens. -/
theorem dispatchGo_append_pass (origSize : Nat) (d : List (Nat × LAction))
    (hd : d.length = origSize) (pre : List (Nat × LAction))
    (hp : ∀ q ∈ pre, q.2 = LAction.pass) (rest : List (Nat × LAction)) :
    dispatchGo origSize d (pre ++ rest)
      = (pre.map Prod.fst ++ (dispatchGo origSize d rest).1,
          (dispatchGo origSize d rest).2) := by
  induction pre with
  | nil => simp
  | cons q pre ih =>
    obtain ⟨tok, act⟩ := q
    have hq : act = LAction.pass := hp (tok, act) (List.mem_cons_self _ _)
    subst hq
    simp [dispatchGo, hd, ih (fun q hq => hp q (List.mem_cons_of_mem _ hq))]

/-- A removing listener is itself invoked, its removal takes effect, and
the iterator then raises `RuntimeError` before invoking anyone else. -/
theorem dispatchGo_remove_step (origSize : Nat) (d : List (Nat × LAction))
    (hd : d.length = origSize) (h1 : 1 ≤ origSize) (tok t : Nat)
    (ht : d.any (fun q => q.1 == t) = true) (rest : List (Nat × LAction)) :
    dispatchGo origSize d ((tok, LAction.removeTok t) :: rest)
      = ([tok], d.eraseP (fun q => q.1 == t), some PyError.runtimeError) := by
  have hlen : (d.eraseP (fun q => q.1 == t)).length = d.length - 1 := by
    obtain ⟨q, hq, hpq⟩ := List.any_eq_true.mp ht
    exact List.length_eraseP_of_mem hq hpq
  have hne : (d.eraseP (fun q => q.1 == t)).length ≠ origSize := by omega
  simp only [dispatchGo, ht, if_pos, if_neg (show ¬ d.length ≠ origSize by omega),
    if_true, dispatchGo_size_mismatch origSize rest _ hne]

/-- C2 (amended). `_on_notify` dispatches over the live registry, not a
snapshot: if no invoked callback removes a listener, every listener
registered at dispatch start is invoked exactly once, in order; but if
an invoked callback removes a (present) listener, the dispatch raises
`RuntimeError` immediately after that callback returns, so the
listeners not yet reached are never invoked. -/
theorem dispatch_live_iteration :
    (∀ reg : List (Nat × LAction), (∀ q ∈ reg, q.2 = LAction.pass) →
        dispatch reg = (reg.map Prod.fst, reg, none)) ∧
    (∀ (pre : List (Nat × LAction)) (tok t : Nat) (rest : List (Nat × LAction)),
        (∀ q ∈ pre, q.2 = LAction.pass) →
        ((pre ++ (tok, LAction.removeTok t) :: rest).any (fun q => q.1 == t)) = true →
        dispatch (pre ++ (tok, LAction.removeTok t) :: rest)
          = (pre.map Prod.fst ++ [tok],
              (pre ++ (tok, LAction.removeTok t) :: rest).eraseP (fun q => q.1 == t),
              some PyError.runtimeError)) := by
  constructor
  · intro reg hp
    exact dispatchGo_all_pass reg.length reg rfl reg hp
  · intro pre tok t rest hp ht
    show dispatchGo _ _ _ = _
    rw [dispatchGo_append_pass _ _ rfl pre hp,
      dispatchGo_remove_step _ _ rfl (by simp; omega) tok t ht rest]

/-- Counterexample for C2 as stated: in the registry
`{1 ↦ remove-self, 2 ↦ pass}` both listeners are registered at dispatch
start, yet dispatching a line invokes listener 2 zero times (not
exactly once): listener 1 removes itself, and the live iterator then
raises `RuntimeError`. -/
theorem dispatch_snapshot_counterexample :
    2 ∈ ([(1, LAction.removeTok 1), (2, LAction.pass)].map Prod.fst) ∧
    (dispatch [(1, LAction.removeTok 1), (2, LAction.pass)]).1.count 2 = 0 ∧
    (dispatch [(1, LAction.removeTok 1), (2, LAction.pass)]).2.2
      = some PyError.runtimeError := by
  decide

/-- Witness for C2 (amended): a pass-only registry dispatches everyone
once; the two-listener registry whose first listener removes itself
invokes only listener 1 and errors. -/
theorem dispatch_live_iteration_witness :
    dispatch [(5, LAction.pass)] = ([5], [(5, LAction.pass)], none) ∧
    dispatch [(1, LAction.removeTok 1), (2, LAction.pass)]
      = ([1], [(2, LAction.pass)], some PyError.runtimeError) := by
  constructor
  · exact dispatch_live_iteration.1 [(5, LAction.pass)] (by decide)
  · have h := dispatch_live_iteration.2 [] 1 1 [(2, LAction.pass)] (by decide) (by decide)
    simpa using h

end MonocleDriver
